import Mathlib

/-!
Verification of the trend-analysis and forecasting core of the
CurrencyConverter repository.

The source (src/client/src/lib/trendAnalysis.ts, src/server/routes.ts and
the server route variant in src/unnamed/part_000) is JavaScript operating
on IEEE doubles.  We embed the numbers as exact rationals extended with
the three non-finite values NaN, +Infinity and -Infinity, and translate
the arithmetic, Math.min / Math.max and comparison operators with their
JavaScript semantics on those values (rounding error of binary doubles is
idealised away; degenerate behaviour such as division by zero is kept
exactly).  None of the translated functions contains a throw statement in
the source, so each embedding is a total function with no error channel.
-/

/-- A JavaScript number: an exact rational, or NaN, or an infinity. -/
inductive JNum where
  | num (q : ℚ)
  | nan
  | inf
  | ninf
deriving DecidableEq, Repr

namespace JNum

/-- JavaScript addition on JNum (NaN absorbs; Infinity + -Infinity = NaN). -/
def add : JNum → JNum → JNum
  | nan, _ => nan
  | _, nan => nan
  | inf, ninf => nan
  | ninf, inf => nan
  | inf, _ => inf
  | _, inf => inf
  | ninf, _ => ninf
  | _, ninf => ninf
  | num a, num b => num (a + b)

/-- JavaScript unary minus. -/
def neg : JNum → JNum
  | nan => nan
  | inf => ninf
  | ninf => inf
  | num a => num (-a)

/-- JavaScript subtraction, a - b = a + (-b). -/
def sub (a b : JNum) : JNum := add a (neg b)

/-- JavaScript multiplication (NaN absorbs; 0 * Infinity = NaN). -/
def mul : JNum → JNum → JNum
  | nan, _ => nan
  | _, nan => nan
  | inf, inf => inf
  | inf, ninf => ninf
  | ninf, inf => ninf
  | ninf, ninf => inf
  | inf, num b => if 0 < b then inf else if b < 0 then ninf else nan
  | num a, inf => if 0 < a then inf else if a < 0 then ninf else nan
  | ninf, num b => if 0 < b then ninf else if b < 0 then inf else nan
  | num a, ninf => if 0 < a then ninf else if a < 0 then inf else nan
  | num a, num b => num (a * b)

/-- JavaScript division (0/0 = NaN, x/0 = signed Infinity, Inf/Inf = NaN). -/
def div : JNum → JNum → JNum
  | nan, _ => nan
  | _, nan => nan
  | inf, inf => nan
  | inf, ninf => nan
  | ninf, inf => nan
  | ninf, ninf => nan
  | num _, inf => num 0
  | num _, ninf => num 0
  | inf, num b => if b < 0 then ninf else inf
  | ninf, num b => if b < 0 then inf else ninf
  | num a, num b => if b = 0 then (if 0 < a then inf else if a < 0 then ninf else nan) else num (a / b)

/-- Math.min on two arguments (NaN propagates). -/
def jmin : JNum → JNum → JNum
  | nan, _ => nan
  | _, nan => nan
  | ninf, _ => ninf
  | _, ninf => ninf
  | inf, b => b
  | a, inf => a
  | num a, num b => num (min a b)

/-- Math.max on two arguments (NaN propagates). -/
def jmax : JNum → JNum → JNum
  | nan, _ => nan
  | _, nan => nan
  | inf, _ => inf
  | _, inf => inf
  | ninf, b => b
  | a, ninf => a
  | num a, num b => num (max a b)

/-- Math.pow(x, 2), i.e. squaring. -/
def sq (a : JNum) : JNum := mul a a

/-- The JavaScript strict greater-than comparison (false whenever NaN is involved). -/
def gtB : JNum → JNum → Bool
  | nan, _ => false
  | _, nan => false
  | inf, inf => false
  | inf, _ => true
  | _, inf => false
  | ninf, _ => false
  | num _, ninf => true
  | num a, num b => decide (b < a)

/-- The JavaScript strict less-than comparison. -/
def ltB (a b : JNum) : Bool := gtB b a

end JNum

open JNum

/-- Rounding of a rational to 2 decimal places, as ECMAScript toFixed(2)
does on the idealised (exact) value: nearest, ties toward the larger value. -/
def roundQ2 (q : ℚ) : ℚ := ((round (q * 100) : ℤ) : ℚ) / 100

/-- parseFloat(x.toFixed(2)) on a JavaScript number: rounds a finite value
to 2 decimals and is the identity on NaN and the infinities. -/
def toFixed2 : JNum → JNum
  | num q => num (roundQ2 q)
  | x => x

/-- Trend direction, the string union up | down | stable of the source. -/
inductive Direction where
  | up
  | down
  | stable
deriving DecidableEq, Repr

/-- Statistics record {average, min, max, volatility} of the source. -/
structure Stats where
  average : JNum
  min : JNum
  max : JNum
  volatility : JNum
deriving DecidableEq, Repr

/-- linearRegression from src/client/src/lib/trendAnalysis.ts lines 6-21
(identical copies in src/server/routes.ts lines 12-25 and in
src/unnamed/part_000): x is the index array 0..n-1, the four sums are
reduce folds from 0, slope = (n*sumXY - sumX*sumY) / (n*sumXX - sumX*sumX)
and intercept = (sumY - slope*sumX) / n. -/
def linearRegression (rates : List JNum) : JNum × JNum :=
  let n : ℕ := rates.length
  let sumX := (List.range n).foldl (fun s (i : ℕ) => JNum.add s (JNum.num (i : ℚ))) (JNum.num 0)
  let sumY := rates.foldl (fun s v => JNum.add s v) (JNum.num 0)
  let sumXY := rates.enum.foldl (fun s p => JNum.add s (JNum.mul (JNum.num (p.1 : ℚ)) p.2)) (JNum.num 0)
  let sumXX := (List.range n).foldl (fun s (i : ℕ) => JNum.add s (JNum.mul (JNum.num (i : ℚ)) (JNum.num (i : ℚ)))) (JNum.num 0)
  let slope := JNum.div (JNum.sub (JNum.mul (JNum.num (n : ℚ)) sumXY) (JNum.mul sumX sumY))
    (JNum.sub (JNum.mul (JNum.num (n : ℚ)) sumXX) (JNum.mul sumX sumX))
  let intercept := JNum.div (JNum.sub sumY (JNum.mul slope sumX)) (JNum.num (n : ℚ))
  (slope, intercept)

/-- generateForecast from trendAnalysis.ts lines 29-40 (identical in
routes.ts lines 28-39 and part_000): lastX = rates.length - 1 (JavaScript
integer arithmetic, hence the ℤ), point i is slope*(lastX+i+1) + intercept
plus the noise (rand(i) - 0.5) * 0.002, where rand models the stream of
Math.random() draws, one fresh draw per point. -/
def generateForecast (rates : List JNum) (days : ℕ) (rand : ℕ → ℚ) : List JNum :=
  let p := linearRegression rates
  let lastX : ℤ := (rates.length : ℤ) - 1
  (List.range days).map (fun (i : ℕ) =>
    JNum.add (JNum.add (JNum.mul p.1 (JNum.num ((lastX + i + 1 : ℤ) : ℚ))) p.2)
      (JNum.mul (JNum.sub (JNum.num (rand i)) (JNum.num (1/2))) (JNum.num (1/500))))

/-- calculateStatistics from trendAnalysis.ts lines 47-64: Math.min and
Math.max over the spread series (identity Infinity resp. -Infinity on an
empty spread), mean via reduce, volatility = (max - min) / average * 100. -/
def calculateStatistics (rates : List JNum) : Stats :=
  let mn := rates.foldl JNum.jmin JNum.inf
  let mx := rates.foldl JNum.jmax JNum.ninf
  let average := JNum.div (rates.foldl (fun s v => JNum.add s v) (JNum.num 0)) (JNum.num (rates.length : ℚ))
  let volatility := JNum.mul (JNum.div (JNum.sub mx mn) average) (JNum.num 100)
  ⟨average, mn, mx, volatility⟩

/-- The statistics block of the /api/historical route in
src/server/routes.ts lines 138-151 and 163-177: the same average, min,
max and volatility, with the served volatility passed through
parseFloat(volatility.toFixed(2)). -/
def serverStatistics (rateValues : List JNum) : Stats :=
  let avg := JNum.div (rateValues.foldl (fun s v => JNum.add s v) (JNum.num 0)) (JNum.num (rateValues.length : ℚ))
  let mn := rateValues.foldl JNum.jmin JNum.inf
  let mx := rateValues.foldl JNum.jmax JNum.ninf
  ⟨avg, mn, mx, toFixed2 (JNum.mul (JNum.div (JNum.sub mx mn) avg) (JNum.num 100))⟩

/-- calculateConfidence from trendAnalysis.ts lines 71-91: predictions of
the fitted line on the indices, yMean, ssTotal and ssResidual via reduce,
rSquared = 1 - ssResidual / ssTotal, result Math.min(95, Math.max(50,
rSquared * 100)). -/
def calculateConfidence (rates : List JNum) : JNum :=
  let p := linearRegression rates
  let n : ℕ := rates.length
  let predictions := (List.range n).map (fun (i : ℕ) => JNum.add (JNum.mul p.1 (JNum.num (i : ℚ))) p.2)
  let yMean := JNum.div (rates.foldl (fun s v => JNum.add s v) (JNum.num 0)) (JNum.num (n : ℚ))
  let ssTotal := rates.foldl (fun s y => JNum.add s (JNum.sq (JNum.sub y yMean))) (JNum.num 0)
  let ssResidual := (rates.zip predictions).foldl (fun s q => JNum.add s (JNum.sq (JNum.sub q.1 q.2))) (JNum.num 0)
  let rSquared := JNum.sub (JNum.num 1) (JNum.div ssResidual ssTotal)
  JNum.jmin (JNum.num 95) (JNum.jmax (JNum.num 50) (JNum.mul rSquared (JNum.num 100)))

/-- analyzeTrend from trendAnalysis.ts lines 98-121: percentChange from
the raw first and last series elements, direction from the fitted slope
with thresholds 0.0001 and -0.0001.  rates[0] and rates[length-1] on an
empty array are undefined, whose arithmetic yields NaN, modelled by the
NaN defaults. -/
def analyzeTrend (rates : List JNum) : Direction × JNum :=
  let slope := (linearRegression rates).1
  let firstRate := rates.headD JNum.nan
  let lastRate := rates.getLastD JNum.nan
  let percentChange := JNum.mul (JNum.div (JNum.sub lastRate firstRate) firstRate) (JNum.num 100)
  let direction : Direction :=
    if JNum.gtB slope (JNum.num (1/10000)) then Direction.up
    else if JNum.ltB slope (JNum.num (-(1/10000))) then Direction.down
    else Direction.stable
  (direction, percentChange)

/-- The trend-analysis block of the /api/forecast route in
src/unnamed/part_000 lines 313-326: startRate = forecastRates[0],
endRate = forecastRates[last], percentChange from those two generated
points, direction from percentChange with thresholds 0.5 and -0.5, and
the served percentChange passed through parseFloat(toFixed(2)). -/
def forecastTrendAnalysis (forecastRates : List JNum) : Direction × JNum :=
  let startRate := forecastRates.headD JNum.nan
  let endRate := forecastRates.getLastD JNum.nan
  let percentChange := JNum.mul (JNum.div (JNum.sub endRate startRate) startRate) (JNum.num 100)
  let direction : Direction :=
    if JNum.gtB percentChange (JNum.num (1/2)) then Direction.up
    else if JNum.ltB percentChange (JNum.num (-(1/2))) then Direction.down
    else Direction.stable
  (direction, toFixed2 percentChange)

/-- Sum of the indices 0..n-1 as a rational: the Σx of the OLS formulas. -/
def sumIdx : ℕ → ℚ
  | 0 => 0
  | n + 1 => sumIdx n + n

/-- Sum of the squared indices 0..n-1: the Σx² of the OLS formulas. -/
def sumIdxSq : ℕ → ℚ
  | 0 => 0
  | n + 1 => sumIdxSq n + n * n

/-- Index-weighted sum Σ (k+j)·y_j over a rational series, starting the
index count at k; at k = 0 this is the Σxy of the OLS formulas. -/
def ixWeightedSum (k : ℕ) : List ℚ → ℚ
  | [] => 0
  | y :: t => k * y + ixWeightedSum (k + 1) t

/-- Σxy over a rational series, indices 0..n-1. -/
def sumXY (qs : List ℚ) : ℚ := ixWeightedSum 0 qs

/-- The ordinary-least-squares slope of the specification:
(nΣxy - ΣxΣy) / (nΣx² - (Σx)²), over indices 0..n-1 and the series values. -/
def olsSlope (qs : List ℚ) : ℚ :=
  ((qs.length : ℚ) * sumXY qs - sumIdx qs.length * qs.sum) /
    ((qs.length : ℚ) * sumIdxSq qs.length - sumIdx qs.length * sumIdx qs.length)

/-- The ordinary-least-squares intercept of the specification:
(Σy - slope·Σx) / n. -/
def olsIntercept (qs : List ℚ) : ℚ :=
  (qs.sum - olsSlope qs * sumIdx qs.length) / (qs.length : ℚ)

/-- Minimum of a rational series (0 on the empty series, unused there). -/
def minD : List ℚ → ℚ
  | [] => 0
  | q :: t => t.foldl min q

/-- Maximum of a rational series (0 on the empty series, unused there). -/
def maxD : List ℚ → ℚ
  | [] => 0
  | q :: t => t.foldl max q

/-- Slope-based direction classification of the specification, thresholds
+0.0001 and -0.0001. -/
def classifySlope (s : ℚ) : Direction :=
  if 1/10000 < s then Direction.up
  else if s < -(1/10000) then Direction.down
  else Direction.stable

/-- percentChange-based direction classification of the specification,
thresholds +0.5 and -0.5 (the /api/forecast variant). -/
def classifyPC (p : ℚ) : Direction :=
  if 1/2 < p then Direction.up
  else if p < -(1/2) then Direction.down
  else Direction.stable

/-- The noise-carrying forecast sequence at the rational level: point i is
slope·((n-1)+i+1) + intercept + (rand(i) - 1/2)·(1/500). -/
def forecastQ (qs : List ℚ) (days : ℕ) (rand : ℕ → ℚ) : List ℚ :=
  (List.range days).map (fun i =>
    olsSlope qs * ((qs.length : ℚ) - 1 + i + 1) + olsIntercept qs + (rand i - 1/2) * (1/500))

/-- Sum of the residuals y_j - (s·(k+j) + b) of a line against a series,
index count starting at k. -/
def residSum (k : ℕ) (s b : ℚ) : List ℚ → ℚ
  | [] => 0
  | y :: t => (y - (s * k + b)) + residSum (k + 1) s b t

namespace JNum

@[simp] lemma add_num (a b : ℚ) : add (num a) (num b) = num (a + b) := rfl

@[simp] lemma neg_num (a : ℚ) : neg (num a) = num (-a) := rfl

@[simp] lemma sub_num (a b : ℚ) : sub (num a) (num b) = num (a - b) := by
  simp [sub, add, neg, sub_eq_add_neg]

@[simp] lemma mul_num (a b : ℚ) : mul (num a) (num b) = num (a * b) := rfl

lemma div_num (a b : ℚ) (h : b ≠ 0) : div (num a) (num b) = num (a / b) := by
  simp [div, h]

@[simp] lemma jmin_num (a b : ℚ) : jmin (num a) (num b) = num (min a b) := rfl

@[simp] lemma jmax_num (a b : ℚ) : jmax (num a) (num b) = num (max a b) := rfl

@[simp] lemma jmin_inf_num (b : ℚ) : jmin inf (num b) = num b := rfl

@[simp] lemma jmax_ninf_num (b : ℚ) : jmax ninf (num b) = num b := rfl

@[simp] lemma gtB_num (a b : ℚ) : gtB (num a) (num b) = decide (b < a) := rfl

@[simp] lemma ltB_num (a b : ℚ) : ltB (num a) (num b) = decide (a < b) := rfl

end JNum

/-- The reduce-from-0 sum over an embedded finite series is the embedded
rational sum. -/
lemma foldl_add_map_num (qs : List ℚ) : ∀ a : ℚ,
    ((qs.map JNum.num).foldl (fun s v => JNum.add s v) (JNum.num a)) = JNum.num (a + qs.sum) := by
  induction qs with
  | nil => intro a; simp
  | cons q t ih => intro a; simp [ih, add_assoc]

/-- The reduce-from-0 sum over the index array is the embedded Σx. -/
lemma foldl_range_add (n : ℕ) : ∀ a : ℚ,
    (List.range n).foldl (fun s (i : ℕ) => JNum.add s (JNum.num (i : ℚ))) (JNum.num a)
      = JNum.num (a + sumIdx n) := by
  induction n with
  | zero => intro a; simp [sumIdx]
  | succ n ih => intro a; rw [List.range_succ, List.foldl_append]; simp [ih, sumIdx, add_assoc]

/-- The reduce-from-0 sum of squared indices is the embedded Σx². -/
lemma foldl_range_sq (n : ℕ) : ∀ a : ℚ,
    (List.range n).foldl (fun s (i : ℕ) => JNum.add s (JNum.mul (JNum.num (i : ℚ)) (JNum.num (i : ℚ)))) (JNum.num a)
      = JNum.num (a + sumIdxSq n) := by
  induction n with
  | zero => intro a; simp [sumIdxSq]
  | succ n ih => intro a; rw [List.range_succ, List.foldl_append, ih]; simp [sumIdxSq, add_assoc]

/-- The reduce-from-0 index-weighted sum over the enumerated embedded
series is the embedded index-weighted rational sum. -/
lemma foldl_enumFrom_mul (qs : List ℚ) : ∀ (k : ℕ) (a : ℚ),
    ((qs.map JNum.num).enumFrom k).foldl
        (fun s p => JNum.add s (JNum.mul (JNum.num (p.1 : ℚ)) p.2)) (JNum.num a)
      = JNum.num (a + ixWeightedSum k qs) := by
  induction qs with
  | nil => intro k a; simp [ixWeightedSum]
  | cons q t ih => intro k a; simp [List.enumFrom, ixWeightedSum, ih, add_assoc]

/-- Specialisation of the previous lemma to enum, i.e. a start index of 0. -/
lemma foldl_enum_mul (qs : List ℚ) (a : ℚ) :
    ((qs.map JNum.num).enum).foldl
        (fun s p => JNum.add s (JNum.mul (JNum.num (p.1 : ℚ)) p.2)) (JNum.num a)
      = JNum.num (a + sumXY qs) := by
  simp [List.enum, foldl_enumFrom_mul, sumXY]

/-- Math.min folded over an embedded series from a finite start. -/
lemma foldl_jmin_map_num (t : List ℚ) : ∀ a : ℚ,
    (t.map JNum.num).foldl JNum.jmin (JNum.num a) = JNum.num (t.foldl min a) := by
  induction t with
  | nil => intro a; rfl
  | cons q t ih => intro a; simp [ih]

/-- Math.max folded over an embedded series from a finite start. -/
lemma foldl_jmax_map_num (t : List ℚ) : ∀ a : ℚ,
    (t.map JNum.num).foldl JNum.jmax (JNum.num a) = JNum.num (t.foldl max a) := by
  induction t with
  | nil => intro a; rfl
  | cons q t ih => intro a; simp [ih]

/-- Math.min(...series) over a non-empty embedded series. -/
lemma foldl_jmin_inf (qs : List ℚ) (h : qs ≠ []) :
    (qs.map JNum.num).foldl JNum.jmin JNum.inf = JNum.num (minD qs) := by
  cases qs with
  | nil => exact absurd rfl h
  | cons q t => simp [minD, foldl_jmin_map_num]

/-- Math.max(...series) over a non-empty embedded series. -/
lemma foldl_jmax_ninf (qs : List ℚ) (h : qs ≠ []) :
    (qs.map JNum.num).foldl JNum.jmax JNum.ninf = JNum.num (maxD qs) := by
  cases qs with
  | nil => exact absurd rfl h
  | cons q t => simp [maxD, foldl_jmax_map_num]

/-- Gauss closed form of the index sum. -/
lemma sumIdx_closed (n : ℕ) : sumIdx n = (n : ℚ) * ((n : ℚ) - 1) / 2 := by
  induction n with
  | zero => simp [sumIdx]
  | succ n ih => simp [sumIdx, ih]; ring

/-- Closed form of the squared-index sum. -/
lemma sumIdxSq_closed (n : ℕ) : sumIdxSq n = (n : ℚ) * ((n : ℚ) - 1) * (2 * (n : ℚ) - 1) / 6 := by
  induction n with
  | zero => simp [sumIdxSq]
  | succ n ih => simp [sumIdxSq, ih]; ring

/-- For at least two observations the OLS denominator nΣx² - (Σx)² is
strictly positive. -/
lemma olsDenom_pos (n : ℕ) (h : 2 ≤ n) :
    0 < (n : ℚ) * sumIdxSq n - sumIdx n * sumIdx n := by
  have hn : (2 : ℚ) ≤ (n : ℚ) := by exact_mod_cast h
  rw [sumIdx_closed, sumIdxSq_closed]
  have key : (n : ℚ) * ((n : ℚ) * ((n : ℚ) - 1) * (2 * (n : ℚ) - 1) / 6)
      - (n : ℚ) * ((n : ℚ) - 1) / 2 * ((n : ℚ) * ((n : ℚ) - 1) / 2)
      = (n : ℚ) * (n : ℚ) * ((n : ℚ) - 1) * ((n : ℚ) + 1) / 12 := by ring
  rw [key]
  have h1 : (0 : ℚ) < (n : ℚ) - 1 := by linarith
  have h2 : (0 : ℚ) < (n : ℚ) := by linarith
  have h3 : (0 : ℚ) < (n : ℚ) + 1 := by linarith
  have := mul_pos (mul_pos (mul_pos h2 h2) h1) h3
  linarith

/-- The OLS denominator is non-zero for at least two observations. -/
lemma olsDenom_ne (n : ℕ) (h : 2 ≤ n) :
    (n : ℚ) * sumIdxSq n - sumIdx n * sumIdx n ≠ 0 :=
  ne_of_gt (olsDenom_pos n h)

/-- Central reduction: on an embedded rational series of length at least 2
the translated linearRegression returns exactly the closed-form OLS slope
and intercept. -/
lemma linReg_eq (qs : List ℚ) (h : 2 ≤ qs.length) :
    linearRegression (qs.map JNum.num) = (JNum.num (olsSlope qs), JNum.num (olsIntercept qs)) := by
  have hn0 : ((qs.length : ℚ)) ≠ 0 := by
    have : qs.length ≠ 0 := by omega
    exact_mod_cast this
  have hden := olsDenom_ne qs.length h
  simp only [linearRegression, List.length_map]
  rw [foldl_range_add, foldl_add_map_num, foldl_enum_mul, foldl_range_sq]
  simp only [zero_add, JNum.mul_num, JNum.sub_num]
  rw [JNum.div_num _ _ hden]
  simp only [JNum.mul_num, JNum.sub_num]
  rw [JNum.div_num _ _ hn0]
  simp [olsSlope, olsIntercept]

/-- On an embedded series of length at least 2 the translated
generateForecast is the embedding of the rational forecast sequence. -/
lemma genForecast_eq (qs : List ℚ) (days : ℕ) (rand : ℕ → ℚ) (h : 2 ≤ qs.length) :
    generateForecast (qs.map JNum.num) days rand = (forecastQ qs days rand).map JNum.num := by
  simp only [generateForecast, linReg_eq qs h, List.length_map, forecastQ, List.map_map]
  congr 1
  funext i
  simp only [Function.comp, JNum.mul_num, JNum.add_num, JNum.sub_num]
  congr 1
  push_cast
  ring

/-- getLastD commutes with the embedding for a finite default. -/
lemma getLastD_map_num (qs : List ℚ) : ∀ d : ℚ,
    (qs.map JNum.num).getLastD (JNum.num d) = JNum.num (qs.getLastD d) := by
  induction qs with
  | nil => intro d; rfl
  | cons q t ih => intro d; simp only [List.map_cons, List.getLastD_cons, ih]

/-- The last element of a non-empty embedded series. -/
lemma getLastD_map_num_nan (qs : List ℚ) (h : qs ≠ []) :
    (qs.map JNum.num).getLastD JNum.nan = JNum.num (qs.getLastD 0) := by
  cases qs with
  | nil => exact absurd rfl h
  | cons q t => simp only [List.map_cons, List.getLastD_cons, getLastD_map_num]

/-- The first element of a non-empty embedded series. -/
lemma headD_map_num_nan (qs : List ℚ) (h : qs ≠ []) :
    (qs.map JNum.num).headD JNum.nan = JNum.num (qs.headD 0) := by
  cases qs with
  | nil => exact absurd rfl h
  | cons q t => rfl

/-- A left fold of max only grows its start value. -/
lemma le_foldl_max (t : List ℚ) : ∀ a : ℚ, a ≤ t.foldl max a := by
  induction t with
  | nil => intro a; exact le_refl a
  | cons b t ih => intro a; exact le_trans (le_max_left a b) (ih (max a b))

/-- A left fold of min only shrinks its start value. -/
lemma foldl_min_le (t : List ℚ) : ∀ a : ℚ, t.foldl min a ≤ a := by
  induction t with
  | nil => intro a; exact le_refl a
  | cons b t ih => intro a; exact le_trans (ih (min a b)) (min_le_left a b)

/-- The sum of a series is at most its length times its maximum. -/
lemma sum_le_mul_foldl_max (t : List ℚ) : ∀ a : ℚ,
    a + t.sum ≤ ((t.length : ℚ) + 1) * t.foldl max a := by
  induction t with
  | nil => intro a; simp
  | cons b t ih => intro a
                   have h1 := ih (max a b)
                   have h2 := le_foldl_max t (max a b)
                   have h3 : min a b ≤ max a b := min_le_max
                   have h4 : min a b + max a b = a + b := min_add_max a b
                   simp only [List.sum_cons, List.foldl_cons, List.length_cons]
                   push_cast
                   nlinarith [h1, h2, h3, h4]

/-- The sum of a series is at least its length times its minimum. -/
lemma mul_foldl_min_le_sum (t : List ℚ) : ∀ a : ℚ,
    ((t.length : ℚ) + 1) * t.foldl min a ≤ a + t.sum := by
  induction t with
  | nil => intro a; simp
  | cons b t ih => intro a
                   have h1 := ih (min a b)
                   have h2 := foldl_min_le t (min a b)
                   have h3 : min a b ≤ max a b := min_le_max
                   have h4 : min a b + max a b = a + b := min_add_max a b
                   simp only [List.sum_cons, List.foldl_cons, List.length_cons]
                   push_cast
                   nlinarith [h1, h2, h3, h4]

/-- The arithmetic mean of a non-empty series is at most its maximum. -/
lemma mean_le_maxD (qs : List ℚ) (h : qs ≠ []) :
    qs.sum / (qs.length : ℚ) ≤ maxD qs := by
  cases qs with
  | nil => exact absurd rfl h
  | cons q t =>
    have hn : (0 : ℚ) < (((q :: t).length : ℕ) : ℚ) := by
      exact_mod_cast Nat.succ_pos t.length
    rw [div_le_iff₀ hn]
    have h1 := sum_le_mul_foldl_max t q
    simp only [maxD, List.sum_cons, List.length_cons]
    push_cast
    nlinarith [h1]

/-- The arithmetic mean of a non-empty series is at least its minimum. -/
lemma minD_le_mean (qs : List ℚ) (h : qs ≠ []) :
    minD qs ≤ qs.sum / (qs.length : ℚ) := by
  cases qs with
  | nil => exact absurd rfl h
  | cons q t =>
    have hn : (0 : ℚ) < (((q :: t).length : ℕ) : ℚ) := by
      exact_mod_cast Nat.succ_pos t.length
    rw [le_div_iff₀ hn]
    have h1 := mul_foldl_min_le_sum t q
    simp only [minD, List.sum_cons, List.length_cons]
    push_cast
    nlinarith [h1]

/-- Index-weighted sum of a constant series. -/
lemma ixWeightedSum_replicate (q : ℚ) : ∀ (m k : ℕ),
    ixWeightedSum k (List.replicate m q) = q * ((m : ℚ) * k + sumIdx m) := by
  intro m
  induction m with
  | zero => intro k; simp [ixWeightedSum, sumIdx]
  | succ m ih => intro k
                 simp only [List.replicate_succ, ixWeightedSum, ih (k + 1), sumIdx]
                 push_cast
                 ring

/-- The OLS slope of a constant series is 0. -/
lemma olsSlope_replicate (n : ℕ) (q : ℚ) : olsSlope (List.replicate n q) = 0 := by
  rw [olsSlope, List.length_replicate, List.sum_replicate, sumXY, ixWeightedSum_replicate,
    nsmul_eq_mul]
  have hz : (n : ℚ) * (q * ((n : ℚ) * ((0 : ℕ) : ℚ) + sumIdx n)) - sumIdx n * ((n : ℚ) * q) = 0 := by
    push_cast
    ring
  rw [hz, zero_div]

/-- The OLS intercept of a constant series is the constant. -/
lemma olsIntercept_replicate (n : ℕ) (q : ℚ) (h : n ≠ 0) :
    olsIntercept (List.replicate n q) = q := by
  have hn : ((n : ℕ) : ℚ) ≠ 0 := Nat.cast_ne_zero.mpr h
  rw [olsIntercept, olsSlope_replicate, List.length_replicate, List.sum_replicate, nsmul_eq_mul]
  field_simp

/-- Mapping a constant function is replicate. -/
lemma map_constFn {α β : Type} (l : List α) (b : β) :
    l.map (fun _ => b) = List.replicate l.length b := by
  induction l with
  | nil => rfl
  | cons a t ih => simp [List.replicate_succ, ih]

/-- Zipping two replicates of the same length is a replicate of the pair. -/
lemma zip_replicate_self {α β : Type} (x : α) (y : β) : ∀ n : ℕ,
    List.zip (List.replicate n x) (List.replicate n y) = List.replicate n (x, y) := by
  intro n
  induction n with
  | zero => rfl
  | succ n ih => simp [List.replicate_succ, ih]

/-- The total-sum-of-squares fold over a constant embedded series keeps
its accumulator: every summand is (q - q)². -/
lemma foldl_ssTotal_replicate (q : ℚ) : ∀ (n : ℕ) (a : ℚ),
    (List.replicate n (JNum.num q)).foldl
        (fun s y => JNum.add s (JNum.sq (JNum.sub y (JNum.num q)))) (JNum.num a)
      = JNum.num a := by
  intro n
  induction n with
  | zero => intro a; rfl
  | succ n ih => intro a
                 rw [List.replicate_succ, List.foldl_cons]
                 have hstep : JNum.add (JNum.num a) (JNum.sq (JNum.sub (JNum.num q) (JNum.num q)))
                     = JNum.num a := by simp [JNum.sq]
                 rw [hstep, ih]

/-- The residual-sum-of-squares fold over a constant zipped series keeps
its accumulator. -/
lemma foldl_ssRes_replicate (q : ℚ) : ∀ (n : ℕ) (a : ℚ),
    (List.replicate n (JNum.num q, JNum.num q)).foldl
        (fun s p => JNum.add s (JNum.sq (JNum.sub p.1 p.2))) (JNum.num a)
      = JNum.num a := by
  intro n
  induction n with
  | zero => intro a; rfl
  | succ n ih => intro a
                 rw [List.replicate_succ, List.foldl_cons]
                 have hstep : JNum.add (JNum.num a) (JNum.sq (JNum.sub (JNum.num q) (JNum.num q)))
                     = JNum.num a := by simp [JNum.sq]
                 exact Eq.trans (by rw [hstep]) (ih a)

/-- Closed form of the residual sum of a line against a series. -/
lemma residSum_eq (s b : ℚ) (qs : List ℚ) : ∀ k : ℕ,
    residSum k s b qs
      = qs.sum - s * ((qs.length : ℚ) * k + sumIdx qs.length) - (qs.length : ℚ) * b := by
  induction qs with
  | nil => intro k; simp [residSum, sumIdx]
  | cons y t ih => intro k
                   simp only [residSum, ih (k + 1), List.sum_cons, List.length_cons, sumIdx]
                   push_cast
                   ring

/-- C1: for every rate series of length n ≥ 2, the regression fitter
returns slope = (nΣxy - ΣxΣy) / (nΣx² - (Σx)²) and
intercept = (Σy - slope·Σx) / n, where x ranges over the indices 0..n-1
and y over the series values. -/
theorem c1_linearRegression_ols (qs : List ℚ) (h : 2 ≤ qs.length) :
    linearRegression (qs.map JNum.num) = (JNum.num (olsSlope qs), JNum.num (olsIntercept qs)) :=
  linReg_eq qs h

/-- Witness for C1 at the series [1, 2]: slope 1, intercept 1. -/
theorem c1_linearRegression_ols_witness :
    2 ≤ ([1, 2] : List ℚ).length ∧
      linearRegression (([1, 2] : List ℚ).map JNum.num) = (JNum.num 1, JNum.num 1) := by
  constructor
  · decide
  · rw [c1_linearRegression_ols [1, 2] (by decide)]
    norm_num [olsSlope, olsIntercept, sumXY, ixWeightedSum, sumIdx, sumIdxSq]

/-- C2: for every series of length n ≥ 2 and horizon ≥ 1, the forecast is
exactly the horizon-length list whose i-th point (day offset i+1) equals
slope·((n-1)+i+1) + intercept plus the noise term (rand(i)-1/2)·(1/500),
and under the Math.random range every noise term is bounded by 1/1000 in
absolute value. -/
theorem c2_generateForecast_points (qs : List ℚ) (days : ℕ) (rand : ℕ → ℚ)
    (h2 : 2 ≤ qs.length) (_hd : 1 ≤ days) (hr : ∀ i, 0 ≤ rand i ∧ rand i ≤ 1) :
    generateForecast (qs.map JNum.num) days rand
        = (List.range days).map (fun (i : ℕ) =>
            JNum.num (olsSlope qs * (((qs.length : ℚ) - 1) + i + 1) + olsIntercept qs
              + (rand i - 1/2) * (1/500)))
      ∧ (generateForecast (qs.map JNum.num) days rand).length = days
      ∧ ∀ i, |(rand i - 1/2) * (1/500)| ≤ 1/1000 := by
  refine ⟨?_, ?_, ?_⟩
  · rw [genForecast_eq qs days rand h2]
    simp [forecastQ]
  · rw [genForecast_eq qs days rand h2]
    simp [forecastQ]
  · intro i
    rcases hr i with ⟨ha, hb⟩
    rw [abs_le]
    constructor <;> linarith

/-- Witness for C2 at the series [1, 2], horizon 1, rand constantly 1/2
(zero noise): the single forecast point is 3. -/
theorem c2_generateForecast_points_witness :
    2 ≤ ([1, 2] : List ℚ).length ∧
      generateForecast (([1, 2] : List ℚ).map JNum.num) 1 (fun _ => 1/2) = [JNum.num 3] := by
  constructor
  · decide
  · have h := (c2_generateForecast_points [1, 2] 1 (fun _ => 1/2) (by decide) (by decide)
      (fun i => by norm_num)).1
    rw [h]
    norm_num [olsSlope, olsIntercept, sumXY, ixWeightedSum, sumIdx, sumIdxSq, List.range_succ]

/-- C9: for every series of length n ≥ 2 the fitted intercept equals
mean(y) - slope·mean(x), so the fitted line passes through the centroid,
and the residuals of the fit sum to zero. -/
theorem c9_centroid_residuals (qs : List ℚ) (h : 2 ≤ qs.length) :
    (linearRegression (qs.map JNum.num)).2
        = JNum.num (qs.sum / (qs.length : ℚ) - olsSlope qs * (sumIdx qs.length / (qs.length : ℚ)))
      ∧ residSum 0 (olsSlope qs) (olsIntercept qs) qs = 0 := by
  have hn : ((qs.length : ℕ) : ℚ) ≠ 0 := by
    have hq : qs.length ≠ 0 := by omega
    exact_mod_cast hq
  constructor
  · rw [linReg_eq qs h]
    show JNum.num (olsIntercept qs) = _
    have hI : olsIntercept qs
        = qs.sum / (qs.length : ℚ) - olsSlope qs * (sumIdx qs.length / (qs.length : ℚ)) := by
      rw [olsIntercept]
      ring
    rw [hI]
  · rw [residSum_eq, olsIntercept]
    push_cast
    field_simp

/-- Witness for C9 at the series [1, 2]: the residual sum vanishes. -/
theorem c9_centroid_residuals_witness :
    2 ≤ ([1, 2] : List ℚ).length ∧
      residSum 0 (olsSlope [1, 2]) (olsIntercept [1, 2]) [1, 2] = 0 := by
  constructor
  · decide
  · exact (c9_centroid_residuals [1, 2] (by decide)).2

/-- C3 counterexample: on the length-1 series [1] the fitter does not
fail; it returns NaN slope and NaN intercept (the OLS denominator is 0),
so a NaN result is returned to the caller. -/
theorem c3_singleton_regression_counterexample :
    linearRegression [JNum.num 1] = (JNum.nan, JNum.nan) := by
  norm_num [linearRegression, List.enum, List.enumFrom, List.range, List.range.loop,
    JNum.add, JNum.mul, JNum.sub, JNum.neg, JNum.div]

/-- C3 amended: for every series of length < 2 the fitter raises no error
and returns NaN slope and intercept (zero OLS denominator), and the
forecast built on it returns a full horizon of NaN points rather than
failing. -/
theorem c3_short_series_nan (rates : List JNum) (days : ℕ) (rand : ℕ → ℚ)
    (h : rates.length < 2) :
    linearRegression rates = (JNum.nan, JNum.nan)
      ∧ (generateForecast rates days rand).length = days
      ∧ ∀ p ∈ generateForecast rates days rand, p = JNum.nan := by
  have hLR : linearRegression rates = (JNum.nan, JNum.nan) := by
    cases rates with
    | nil =>
      norm_num [linearRegression, List.enum, List.enumFrom, JNum.add, JNum.mul, JNum.sub,
        JNum.neg, JNum.div]
    | cons a t =>
      cases t with
      | nil =>
        cases a <;>
          norm_num [linearRegression, List.enum, List.enumFrom, List.range, List.range.loop,
            JNum.add, JNum.mul, JNum.sub, JNum.neg, JNum.div]
      | cons b t2 => simp only [List.length_cons] at h; omega
  refine ⟨hLR, ?_, ?_⟩
  · simp [generateForecast]
  · intro p hp
    simp only [generateForecast, hLR] at hp
    rcases List.mem_map.1 hp with ⟨i, hi, rfl⟩
    simp [JNum.add, JNum.mul]

/-- Witness for the C3 amended theorem at the series [5]. -/
theorem c3_short_series_nan_witness :
    [JNum.num 5].length < 2 ∧ linearRegression [JNum.num 5] = (JNum.nan, JNum.nan) := by
  constructor
  · decide
  · exact (c3_short_series_nan [JNum.num 5] 2 (fun _ => 0) (by decide)).1

/-- C4 counterexample: on the constant series [2, 2] the confidence
computation returns NaN (ssTotal = 0 makes rSquared 0/0 and the clamp
propagates NaN), not the claimed maximum confidence 95. -/
theorem c4_constant_confidence_counterexample :
    calculateConfidence (List.replicate 2 (JNum.num 2)) = JNum.nan ∧ JNum.nan ≠ JNum.num 95 := by
  constructor
  · norm_num [calculateConfidence, linearRegression, List.enum, List.enumFrom, List.range,
      List.range.loop, List.replicate, JNum.add, JNum.mul, JNum.sub, JNum.neg, JNum.div,
      JNum.sq, JNum.jmin, JNum.jmax]
  · simp

/-- C4 amended: for every constant series of length at least 2, ssTotal is
0, rSquared is the NaN 0/0, and the clamp Math.min(95, Math.max(50, ...))
propagates it, so the confidence computation returns NaN to the caller
instead of the documented fallback 95. -/
theorem c4_constant_confidence_nan (q : ℚ) (n : ℕ) (h : 2 ≤ n) :
    calculateConfidence (List.replicate n (JNum.num q)) = JNum.nan := by
  have hn : n ≠ 0 := by omega
  have hnQ : ((n : ℕ) : ℚ) ≠ 0 := Nat.cast_ne_zero.mpr hn
  have hmap : (List.replicate n q).map JNum.num = List.replicate n (JNum.num q) := by
    simp [List.map_replicate]
  have hlen2 : 2 ≤ (List.replicate n q).length := by simpa [List.length_replicate] using h
  have hLR : linearRegression (List.replicate n (JNum.num q)) = (JNum.num 0, JNum.num q) := by
    rw [← hmap, linReg_eq _ hlen2, olsSlope_replicate, olsIntercept_replicate n q hn]
  have hsum : (List.replicate n (JNum.num q)).foldl (fun s v => JNum.add s v) (JNum.num 0)
      = JNum.num ((n : ℚ) * q) := by
    rw [← hmap, foldl_add_map_num]
    simp [List.sum_replicate, nsmul_eq_mul]
  have hM : JNum.div ((List.replicate n (JNum.num q)).foldl (fun s v => JNum.add s v) (JNum.num 0))
      (JNum.num ((n : ℕ) : ℚ)) = JNum.num q := by
    rw [hsum, JNum.div_num _ _ hnQ]
    congr 1
    field_simp
  have hpredfun : (fun (i : ℕ) => JNum.add (JNum.mul (JNum.num (0 : ℚ)) (JNum.num (i : ℚ))) (JNum.num q))
      = fun _ => JNum.num q := by
    funext i
    simp
  simp only [calculateConfidence, hLR, List.length_replicate, hpredfun, map_constFn,
    List.length_range, zip_replicate_self, hM]
  rw [foldl_ssTotal_replicate q n 0, foldl_ssRes_replicate q n 0]
  norm_num [JNum.div, JNum.sub, JNum.neg, JNum.add, JNum.mul, JNum.jmin, JNum.jmax]

/-- Witness for the C4 amended theorem at the constant series of three 1s. -/
theorem c4_constant_confidence_nan_witness :
    2 ≤ 3 ∧ calculateConfidence (List.replicate 3 (JNum.num 1)) = JNum.nan :=
  ⟨by decide, c4_constant_confidence_nan 1 3 (by decide)⟩

/-- C7 counterexample: summarize on the empty series does not fail; it
returns infinite min and max and a NaN average. -/
theorem c7_empty_statistics_counterexample :
    (calculateStatistics []).min = JNum.inf ∧ (calculateStatistics []).max = JNum.ninf
      ∧ (calculateStatistics []).average = JNum.nan := by
  refine ⟨rfl, rfl, ?_⟩
  norm_num [calculateStatistics, JNum.div]

/-- C7 amended: on the empty series the statistics computation raises no
error and returns average NaN (0/0), min +Infinity, max -Infinity and
volatility NaN. -/
theorem c7_empty_statistics_value :
    calculateStatistics [] = ⟨JNum.nan, JNum.inf, JNum.ninf, JNum.nan⟩ := by
  norm_num [calculateStatistics, JNum.div, JNum.sub, JNum.neg, JNum.add, JNum.mul]

/-- C5: for every series of length at least 2 with non-zero first
element, the trend analyzer returns percentChange computed from the raw
series endpoints, (last - first)/first·100, and classifies direction from
the fitted OLS slope with thresholds +0.0001 / -0.0001. -/
theorem c5_analyzeTrend_spec (qs : List ℚ) (h2 : 2 ≤ qs.length) (h0 : qs.headD 0 ≠ 0) :
    analyzeTrend (qs.map JNum.num)
      = (classifySlope (olsSlope qs),
         JNum.num ((qs.getLastD 0 - qs.headD 0) / qs.headD 0 * 100)) := by
  have hne : qs ≠ [] := by
    intro hq
    rw [hq] at h2
    simp at h2
  simp only [analyzeTrend, linReg_eq qs h2, headD_map_num_nan qs hne, getLastD_map_num_nan qs hne]
  rw [JNum.sub_num, JNum.div_num _ _ h0, JNum.mul_num]
  simp only [JNum.gtB_num, JNum.ltB_num, decide_eq_true_eq, classifySlope]

/-- Witness for C5 at the series [1, 1/2, 6/5, 999/1000]: the fitted slope
is positive (direction up) while the raw endpoints fall (percentChange
-1/10), exhibiting the disagreement the claim allows. -/
theorem c5_analyzeTrend_spec_witness :
    2 ≤ ([1, 1/2, 6/5, 999/1000] : List ℚ).length
      ∧ analyzeTrend (([1, 1/2, 6/5, 999/1000] : List ℚ).map JNum.num)
          = (Direction.up, JNum.num (-(1/10))) := by
  constructor
  · decide
  · rw [c5_analyzeTrend_spec [1, 1/2, 6/5, 999/1000] (by decide) (by norm_num)]
    norm_num [classifySlope, olsSlope, sumXY, ixWeightedSum, sumIdx, sumIdxSq]

/-- C6: for every non-empty series with non-zero total (hence non-zero
mean, the domain on which the volatility quotient is defined), summarize
returns the arithmetic mean, min, max and volatility
(max - min)/average·100, and the server historical route serves the same
statistics with the volatility rounded to 2 decimal places for display. -/
theorem c6_statistics_spec (qs : List ℚ) (hne : qs ≠ []) (havg : qs.sum ≠ 0) :
    calculateStatistics (qs.map JNum.num)
        = ⟨JNum.num (qs.sum / (qs.length : ℚ)), JNum.num (minD qs), JNum.num (maxD qs),
           JNum.num ((maxD qs - minD qs) / (qs.sum / (qs.length : ℚ)) * 100)⟩
      ∧ serverStatistics (qs.map JNum.num)
        = ⟨JNum.num (qs.sum / (qs.length : ℚ)), JNum.num (minD qs), JNum.num (maxD qs),
           JNum.num (roundQ2 ((maxD qs - minD qs) / (qs.sum / (qs.length : ℚ)) * 100))⟩ := by
  have hn0 : ((qs.length : ℕ) : ℚ) ≠ 0 := by
    have hq : qs.length ≠ 0 := by
      intro hq
      exact hne (List.length_eq_zero.mp hq)
    exact_mod_cast hq
  have hA : qs.sum / (qs.length : ℚ) ≠ 0 := div_ne_zero havg hn0
  have hsum : (qs.map JNum.num).foldl (fun s v => JNum.add s v) (JNum.num 0) = JNum.num qs.sum := by
    rw [foldl_add_map_num, zero_add]
  constructor
  · simp only [calculateStatistics, List.length_map, hsum, foldl_jmin_inf qs hne,
      foldl_jmax_ninf qs hne]
    rw [JNum.div_num _ _ hn0, JNum.sub_num, JNum.div_num _ _ hA, JNum.mul_num]
  · simp only [serverStatistics, List.length_map, hsum, foldl_jmin_inf qs hne,
      foldl_jmax_ninf qs hne]
    rw [JNum.div_num _ _ hn0, JNum.sub_num, JNum.div_num _ _ hA, JNum.mul_num]
    simp [toFixed2]

/-- Witness for C6 at the constant series [100, 100, 100]: average, min
and max are 100 and the volatility is exactly 0. -/
theorem c6_statistics_spec_witness :
    (([100, 100, 100] : List ℚ) ≠ [])
      ∧ calculateStatistics (([100, 100, 100] : List ℚ).map JNum.num)
          = ⟨JNum.num 100, JNum.num 100, JNum.num 100, JNum.num 0⟩ := by
  constructor
  · simp
  · have h := (c6_statistics_spec [100, 100, 100] (by simp) (by norm_num)).1
    rw [h]
    norm_num [minD, maxD]

/-- C10: for every non-empty series the statistics satisfy
min ≤ average ≤ max, and for strictly positive series the volatility is
non-negative. -/
theorem c10_mean_bounds (qs : List ℚ) (hne : qs ≠ []) :
    (calculateStatistics (qs.map JNum.num)).average = JNum.num (qs.sum / (qs.length : ℚ))
      ∧ (calculateStatistics (qs.map JNum.num)).min = JNum.num (minD qs)
      ∧ (calculateStatistics (qs.map JNum.num)).max = JNum.num (maxD qs)
      ∧ minD qs ≤ qs.sum / (qs.length : ℚ)
      ∧ qs.sum / (qs.length : ℚ) ≤ maxD qs
      ∧ ((∀ r ∈ qs, 0 < r) →
          (calculateStatistics (qs.map JNum.num)).volatility
              = JNum.num ((maxD qs - minD qs) / (qs.sum / (qs.length : ℚ)) * 100)
            ∧ 0 ≤ (maxD qs - minD qs) / (qs.sum / (qs.length : ℚ)) * 100) := by
  have hn0 : ((qs.length : ℕ) : ℚ) ≠ 0 := by
    have hq : qs.length ≠ 0 := by
      intro hq
      exact hne (List.length_eq_zero.mp hq)
    exact_mod_cast hq
  have hsum : (qs.map JNum.num).foldl (fun s v => JNum.add s v) (JNum.num 0) = JNum.num qs.sum := by
    rw [foldl_add_map_num, zero_add]
  have hmin := minD_le_mean qs hne
  have hmax := mean_le_maxD qs hne
  refine ⟨?_, ?_, ?_, hmin, hmax, ?_⟩
  · simp only [calculateStatistics, List.length_map, hsum, foldl_jmin_inf qs hne,
      foldl_jmax_ninf qs hne]
    rw [JNum.div_num _ _ hn0]
  · simp only [calculateStatistics, List.length_map, hsum, foldl_jmin_inf qs hne,
      foldl_jmax_ninf qs hne]
  · simp only [calculateStatistics, List.length_map, hsum, foldl_jmin_inf qs hne,
      foldl_jmax_ninf qs hne]
  · intro hpos
    have hsumpos : 0 < qs.sum := List.sum_pos qs hpos hne
    have hlpos : (0 : ℚ) < ((qs.length : ℕ) : ℚ) := by
      exact_mod_cast Nat.pos_of_ne_zero (fun hq => hne (List.length_eq_zero.mp hq))
    have hApos : 0 < qs.sum / (qs.length : ℚ) := div_pos hsumpos hlpos
    have hA : qs.sum / (qs.length : ℚ) ≠ 0 := ne_of_gt hApos
    constructor
    · simp only [calculateStatistics, List.length_map, hsum, foldl_jmin_inf qs hne,
        foldl_jmax_ninf qs hne]
      rw [JNum.div_num _ _ hn0, JNum.sub_num, JNum.div_num _ _ hA, JNum.mul_num]
    · have hd : 0 ≤ maxD qs - minD qs := by linarith
      have hq := div_nonneg hd (le_of_lt hApos)
      nlinarith [hq]

/-- Witness for C10 at the series [1, 2]: min 1 ≤ mean 3/2 ≤ max 2 and
the volatility is non-negative. -/
theorem c10_mean_bounds_witness :
    (([1, 2] : List ℚ) ≠ [])
      ∧ minD [1, 2] ≤ ([1, 2] : List ℚ).sum / (([1, 2] : List ℚ).length : ℚ)
      ∧ 0 ≤ (maxD [1, 2] - minD [1, 2])
          / (([1, 2] : List ℚ).sum / (([1, 2] : List ℚ).length : ℚ)) * 100 := by
  have h := c10_mean_bounds [1, 2] (by simp)
  exact ⟨by simp, h.2.2.2.1, (h.2.2.2.2.2 (by norm_num)).2⟩

/-- C8: the /api/forecast trend block of src/unnamed/part_000 computes
percentChange from the first and last generated (noisy) forecast points,
classifies direction purely from that percentChange with thresholds
+0.5 / -0.5, and serves the percentChange rounded to 2 decimals. -/
theorem c8_forecast_endpoint_analysis (qs : List ℚ) (days : ℕ) (rand : ℕ → ℚ)
    (h2 : 2 ≤ qs.length) (hd : 1 ≤ days)
    (h0 : (forecastQ qs days rand).headD 0 ≠ 0) :
    forecastTrendAnalysis (generateForecast (qs.map JNum.num) days rand)
      = (classifyPC (((forecastQ qs days rand).getLastD 0 - (forecastQ qs days rand).headD 0)
            / (forecastQ qs days rand).headD 0 * 100),
         JNum.num (roundQ2 (((forecastQ qs days rand).getLastD 0 - (forecastQ qs days rand).headD 0)
            / (forecastQ qs days rand).headD 0 * 100))) := by
  have hfne : forecastQ qs days rand ≠ [] := by
    have hlen : (forecastQ qs days rand).length = days := by simp [forecastQ]
    intro hq
    rw [hq] at hlen
    simp at hlen
    omega
  rw [genForecast_eq qs days rand h2]
  simp only [forecastTrendAnalysis, headD_map_num_nan _ hfne, getLastD_map_num_nan _ hfne]
  rw [JNum.sub_num, JNum.div_num _ _ h0, JNum.mul_num]
  simp only [JNum.gtB_num, JNum.ltB_num, decide_eq_true_eq, classifyPC, toFixed2]

/-- Witness for C8 at the series [1, 2], horizon 2, zero noise: the
forecast points are 3 and 4, percentChange 100/3 percent, direction up,
served rounded to 33.33. -/
theorem c8_forecast_endpoint_analysis_witness :
    2 ≤ ([1, 2] : List ℚ).length ∧
      forecastTrendAnalysis (generateForecast (([1, 2] : List ℚ).map JNum.num) 2 (fun _ => 1/2))
        = (Direction.up, JNum.num (3333/100)) := by
  constructor
  · decide
  · rw [c8_forecast_endpoint_analysis [1, 2] 2 (fun _ => 1/2) (by decide) (by decide)
      (by norm_num [forecastQ, olsSlope, olsIntercept, sumXY, ixWeightedSum, sumIdx, sumIdxSq,
        List.range_succ])]
    norm_num [classifyPC, forecastQ, olsSlope, olsIntercept, sumXY, ixWeightedSum, sumIdx,
      sumIdxSq, List.range_succ, roundQ2, round_eq]
